import Mathlib

/-!
Shallow embedding of the `imagepreview` repository (src/grid.rs) and proofs
about its grid-compositing pipeline.

Machine arithmetic is modelled explicitly:
* Rust `u32` arithmetic wraps modulo `2 ^ 32` (release-build semantics), so
  every `u32` multiplication in the embedding carries an explicit `% 2 ^ 32`.
* The planner's `(n as f32 / cols as f32).ceil() as u32` is modelled exactly.
  Every value this expression manipulates is a non-negative IEEE-754 binary32
  number in the normal range `[1, 2^64]`, far below binary32 overflow, and
  every such number is an exact dyadic rational `mant / 2 ^ shift`.  The model
  computes those dyadic rationals with exact natural-number arithmetic and
  performs the IEEE-754 round-to-nearest-ties-to-even rounding steps of the
  integer-to-float cast and of the float division explicitly.
-/

namespace ImagePreview

/-! ### Exact binary32 model (for `calculate_grid_dimensions`) -/

/-- Fuel-driven binary logarithm: for `1 ≤ n ≤ fuel`, `lg2Aux fuel n` is the
unique `e` with `2 ^ e ≤ n < 2 ^ (e + 1)`.  Written with explicit fuel so that
the kernel can evaluate it by structural recursion. -/
def lg2Aux : ℕ → ℕ → ℕ
  | 0, _ => 0
  | fuel + 1, n => if n ≤ 1 then 0 else lg2Aux fuel (n / 2) + 1

/-- Binary logarithm (floor), total on `ℕ`. -/
def lg2 (n : ℕ) : ℕ := lg2Aux n n

/-- Nearest integer to `num / den` with ties going to the even integer
(the IEEE-754 default rounding applied to an exact rational quotient). -/
def roundHalfEven (num den : ℕ) : ℕ :=
  let q := num / den
  let rem := num % den
  if 2 * rem < den then q
  else if den < 2 * rem then q + 1
  else if q % 2 = 0 then q else q + 1

/-- Rust `n as f32` for a non-negative integer, returned as the exact integer
value of the resulting float.  Integers below `2 ^ 24` are exactly
representable; larger ones are rounded to 24 significant bits with
round-to-nearest, ties-to-even (the rounding the cast performs). -/
def f32natRound (n : ℕ) : ℕ :=
  if n < 2 ^ 24 then n
  else
    let s := 2 ^ (lg2 n - 23)
    roundHalfEven n s * s

/-- A non-negative binary32 value, as the exact dyadic rational
`mant / 2 ^ shift`. -/
structure F32 where
  mant : ℕ
  shift : ℕ
  deriving DecidableEq, Repr

/-- Binary32 division of an exactly representable integer `N ≥ 3` by `3.0`
(this is `n as f32 / cols as f32` in `calculate_grid_dimensions`, where
`cols = 3`): the exact quotient `N / 3` lies in the binade
`[2 ^ e, 2 ^ (e + 1))` with `e = lg2 (N / 3)`, and IEEE-754 division rounds its
mantissa `N / 3 / 2 ^ (e - 23)` to the nearest integer, ties to even. -/
def f32div3 (N : ℕ) : F32 :=
  let e := lg2 (N / 3)
  if e ≤ 23 then
    { mant := roundHalfEven (N * 2 ^ (23 - e)) 3, shift := 23 - e }
  else
    { mant := roundHalfEven N (3 * 2 ^ (e - 23)) * 2 ^ (e - 23), shift := 0 }

/-- Rust `f32::ceil`: the least integer `≥ mant / 2 ^ shift`.  (The ceiling of
any binary32 value in this program's range is itself exactly representable, so
the float result is exactly this integer.) -/
def F32.ceil (x : F32) : ℕ := (x.mant + 2 ^ x.shift - 1) / 2 ^ x.shift

/-- Function `calculate_grid_dimensions` from src/grid.rs:
`0 => (0,0); 1 => (1,1); 2..=4 => (2,2);
 n => (3, (n as f32 / 3 as f32).ceil() as u32)`.
The final `as u32` cast truncates toward zero and saturates to
`[0, 2 ^ 32 - 1]`; its argument is already a non-negative integer. -/
def calculate_grid_dimensions (count : ℕ) : ℕ × ℕ :=
  match count with
  | 0 => (0, 0)
  | 1 => (1, 1)
  | 2 => (2, 2)
  | 3 => (2, 2)
  | 4 => (2, 2)
  | n => (3, min (F32.ceil (f32div3 (f32natRound n))) (2 ^ 32 - 1))

example : calculate_grid_dimensions 0 = (0, 0) := by decide
example : calculate_grid_dimensions 1 = (1, 1) := by decide
example : calculate_grid_dimensions 2 = (2, 2) := by decide
example : calculate_grid_dimensions 4 = (2, 2) := by decide
example : calculate_grid_dimensions 5 = (3, 2) := by decide
example : calculate_grid_dimensions 6 = (3, 2) := by decide
example : calculate_grid_dimensions 7 = (3, 3) := by decide
example : calculate_grid_dimensions 9 = (3, 3) := by decide
example : calculate_grid_dimensions 10 = (3, 4) := by decide
example : calculate_grid_dimensions 16777225 = (3, 5592408) := by decide

/-! ### Pixels, images and the compositor (`create_image_grid`) -/

/-- One RGBA pixel, one byte per channel (the `image` crate's `Rgba<u8>`). -/
structure Rgba where
  r : ℕ
  g : ℕ
  b : ℕ
  a : ℕ
  deriving DecidableEq, Repr

/-- The fully opaque white pixel `Rgba([255, 255, 255, 255])`. -/
def white : Rgba := ⟨255, 255, 255, 255⟩

/-- A decoded RGBA image (the `image` crate's `RgbaImage`): a width, a height,
and the pixel at each coordinate (origin top-left, only coordinates
`x < width`, `y < height` are ever queried). -/
structure RgbaImage where
  width : ℕ
  height : ℕ
  pixelAt : ℕ → ℕ → Rgba

/-- Rust `ImageBuffer::from_pixel(w, h, p)`: a `w × h` image with every pixel `p`. -/
def from_pixel (w h : ℕ) (p : Rgba) : RgbaImage :=
  { width := w, height := h, pixelAt := fun _ _ => p }

/-- Rust `image::imageops::overlay(bottom, top, x, y)` for non-negative offsets:
the pasted region is clipped to the bottom image's bounds, and each covered
bottom pixel is replaced by `blend` of itself with the corresponding top pixel
(`blend` is the `image` crate's alpha compositing, kept as a parameter because
the codec library is an external collaborator). -/
def overlay (blend : Rgba → Rgba → Rgba) (bottom top : RgbaImage) (x y : ℕ) :
    RgbaImage where
  width := bottom.width
  height := bottom.height
  pixelAt := fun px py =>
    if x ≤ px ∧ px < x + top.width ∧ px < bottom.width ∧
       y ≤ py ∧ py < y + top.height ∧ py < bottom.height then
      blend (bottom.pixelAt px py) (top.pixelAt (px - x) (py - y))
    else bottom.pixelAt px py

/-- Source line `let x_offset = col * max_width;` — `col = (idx as u32) % cols` with
`as u32` truncating modulo `2 ^ 32` and the `u32` product wrapping. -/
def xoffset (cols mw idx : ℕ) : ℕ := idx % 2 ^ 32 % cols * mw % 2 ^ 32

/-- Source line `let y_offset = row * max_height;` — `row = (idx as u32) / cols`. -/
def yoffset (cols mh idx : ℕ) : ℕ := idx % 2 ^ 32 / cols * mh % 2 ^ 32

/-- The compositing loop of `create_image_grid`:
`for (idx, img) in images.iter().enumerate() { ... overlay(...) }`,
started at index `idx`. -/
def overlayAll (blend : Rgba → Rgba → Rgba) (cols mw mh : ℕ) :
    ℕ → List RgbaImage → RgbaImage → RgbaImage
  | _, [], grid => grid
  | idx, img :: rest, grid =>
      overlayAll blend cols mw mh (idx + 1) rest
        (overlay blend grid img (xoffset cols mw idx) (yoffset cols mh idx))

/-- Source expression `images.iter().map(|img| img.width()).max().unwrap_or(0)`. -/
def maxWidth (images : List RgbaImage) : ℕ :=
  (images.map (fun img => img.width)).foldr max 0

/-- Source expression `images.iter().map(|img| img.height()).max().unwrap_or(0)`. -/
def maxHeight (images : List RgbaImage) : ℕ :=
  (images.map (fun img => img.height)).foldr max 0

/-- The blank canvas `ImageBuffer::from_pixel(grid_width, grid_height, white)`
allocated by `create_image_grid`; the `u32` products `cols * max_width` and
`rows * max_height` wrap modulo `2 ^ 32`. -/
def initialCanvas (images : List RgbaImage) : RgbaImage :=
  from_pixel
    ((calculate_grid_dimensions images.length).1 * maxWidth images % 2 ^ 32)
    ((calculate_grid_dimensions images.length).2 * maxHeight images % 2 ^ 32)
    white

/-- The whole compositing phase of `create_image_grid`, applied to the decoded
images: allocate the white canvas and overlay every image in index order. -/
def composeImages (blend : Rgba → Rgba → Rgba) (images : List RgbaImage) :
    RgbaImage :=
  overlayAll blend (calculate_grid_dimensions images.length).1
    (maxWidth images) (maxHeight images) 0 images (initialCanvas images)

/-! ### Error type and the fallible pipeline -/

/-- Type `GridError` from src/grid.rs.  The payloads of the decode, transport and
base64 variants come from external collaborator crates, so their types are
parameters; `Utf8Error`'s `FromUtf8Error` payload carries no information the
program ever inspects and is dropped. -/
inductive GridError (ImgErr TransErr B64Err : Type) where
  | ImageDecodeError : ImgErr → GridError ImgErr TransErr B64Err
  | EmptyInput : GridError ImgErr TransErr B64Err
  | DownloadError : TransErr → GridError ImgErr TransErr B64Err
  | Base64DecodeError : B64Err → GridError ImgErr TransErr B64Err
  | Utf8Error : GridError ImgErr TransErr B64Err
  deriving DecidableEq

/-- Rust's `collect::<Result<Vec<_>, _>>()` over an ordered sequence of
results: the whole list on success, the first error (in sequence order)
otherwise. -/
def collectExcept {ε α : Type} : List (Except ε α) → Except ε (List α)
  | [] => .ok []
  | .error e :: _ => .error e
  | .ok a :: rest => (collectExcept rest).map (fun as => a :: as)

section Pipeline

variable {ImgErr TransErr B64Err : Type}

/-- The decode phase of `create_image_grid`: each byte buffer is decoded by the
external codec (`image::load_from_memory(..).map(|img| img.to_rgba8())`,
abstracted as `decode`) and the per-image results are collected into the first
error or the full ordered list. -/
def decode_all (decode : List ℕ → Except ImgErr RgbaImage)
    (image_bytes : List (List ℕ)) :
    Except (GridError ImgErr TransErr B64Err) (List RgbaImage) :=
  collectExcept
    (image_bytes.map (fun bytes => (decode bytes).mapError .ImageDecodeError))

/-- Function `create_image_grid` from src/grid.rs: reject empty input, decode every
buffer, then composite onto the white canvas. -/
def create_image_grid (decode : List ℕ → Except ImgErr RgbaImage)
    (blend : Rgba → Rgba → Rgba) (image_bytes : List (List ℕ)) :
    Except (GridError ImgErr TransErr B64Err) RgbaImage :=
  if image_bytes.isEmpty then .error .EmptyInput
  else do
    let images ← decode_all decode image_bytes
    pure (composeImages blend images)

/-- Method `ImageService::download_images`: reject an empty URL list, fetch every URL
(the external HTTP transport is the `fetch` parameter; `join_all` returns the
per-URL results in input order regardless of completion order), then collect
into the first error or the full ordered byte-buffer list. -/
def download_images (fetch : String → Except TransErr (List ℕ))
    (urls : List String) :
    Except (GridError ImgErr TransErr B64Err) (List (List ℕ)) :=
  if urls.isEmpty then .error .EmptyInput
  else collectExcept (urls.map (fun url => (fetch url).mapError .DownloadError))

end Pipeline

/-! ### UTF-8, string splitting and `process_base64_urls` -/

/-- Strict UTF-8 decoding of a byte sequence (Rust's `String::from_utf8`):
1-byte `00..7F`; 2-byte `C2..DF` + continuation; 3-byte `E0..EF` with the
usual second-byte restrictions (no overlongs for `E0`, no surrogates for
`ED`); 4-byte `F0..F4` with the usual second-byte restrictions (no overlongs
for `F0`, nothing above `U+10FFFF` for `F4`).  `none` on any invalid byte. -/
def utf8Decode : List ℕ → Option (List Char)
  | [] => some []
  | b1 :: rest =>
    if b1 < 0x80 then
      (utf8Decode rest).map (fun cs => Char.ofNat b1 :: cs)
    else if b1 < 0xC2 then none
    else if b1 < 0xE0 then
      match rest with
      | b2 :: rest2 =>
        if 0x80 ≤ b2 ∧ b2 < 0xC0 then
          (utf8Decode rest2).map
            (fun cs => Char.ofNat ((b1 - 0xC0) * 0x40 + (b2 - 0x80)) :: cs)
        else none
      | [] => none
    else if b1 < 0xF0 then
      match rest with
      | b2 :: b3 :: rest3 =>
        if (if b1 = 0xE0 then 0xA0 ≤ b2 ∧ b2 < 0xC0
            else if b1 = 0xED then 0x80 ≤ b2 ∧ b2 < 0xA0
            else 0x80 ≤ b2 ∧ b2 < 0xC0) ∧ 0x80 ≤ b3 ∧ b3 < 0xC0 then
          (utf8Decode rest3).map
            (fun cs =>
              Char.ofNat
                ((b1 - 0xE0) * 0x1000 + (b2 - 0x80) * 0x40 + (b3 - 0x80)) :: cs)
        else none
      | _ => none
    else if b1 < 0xF5 then
      match rest with
      | b2 :: b3 :: b4 :: rest4 =>
        if (if b1 = 0xF0 then 0x90 ≤ b2 ∧ b2 < 0xC0
            else if b1 = 0xF4 then 0x80 ≤ b2 ∧ b2 < 0x90
            else 0x80 ≤ b2 ∧ b2 < 0xC0) ∧
           0x80 ≤ b3 ∧ b3 < 0xC0 ∧ 0x80 ≤ b4 ∧ b4 < 0xC0 then
          (utf8Decode rest4).map
            (fun cs =>
              Char.ofNat
                ((b1 - 0xF0) * 0x40000 + (b2 - 0x80) * 0x1000 +
                 (b3 - 0x80) * 0x40 + (b4 - 0x80)) :: cs)
        else none
      | _ => none
    else none

/-- Rust's `str::split(',')`: cut the character sequence at every comma,
keeping empty pieces (`",".split(',')` is `["", ""]`, `"".split(',')` is
`[""]`). -/
def splitComma : List Char → List (List Char)
  | [] => [[]]
  | c :: rest =>
    if c = ',' then [] :: splitComma rest
    else
      match splitComma rest with
      | [] => [[c]]
      | piece :: pieces => (c :: piece) :: pieces

/-- The Unicode `White_Space` property, which Rust's `str::trim` strips. -/
def rustIsWhitespace (c : Char) : Bool :=
  let n := c.toNat
  (9 ≤ n ∧ n ≤ 13) ∨ n = 32 ∨ n = 133 ∨ n = 160 ∨ n = 5760 ∨
    (8192 ≤ n ∧ n ≤ 8202) ∨ n = 8232 ∨ n = 8233 ∨ n = 8239 ∨ n = 8287 ∨
    n = 12288

/-- Rust's `str::trim`: drop whitespace from both ends. -/
def rustTrim (cs : List Char) : List Char :=
  ((cs.dropWhile rustIsWhitespace).reverse.dropWhile rustIsWhitespace).reverse

/-- The URL-list extraction in `process_base64_urls`:
`decoded_str.split(',').map(|s| s.trim().to_string()).filter(|s| !s.is_empty())`. -/
def extract_urls (decoded_str : List Char) : List (List Char) :=
  ((splitComma decoded_str).map rustTrim).filter (fun s => !s.isEmpty)

section Facade

variable {ImgErr TransErr B64Err : Type}

/-- The three-engine fallback decode in `process_base64_urls`:
`STANDARD.decode(s).or_else(|_| URL_SAFE_NO_PAD.decode(s)).or_else(|_| URL_SAFE.decode(s))`.
The base64 engines are external collaborators, passed as `dstd`, `dun`,
`dup'`; the first success wins, and on total failure the error reported is the
last engine's. -/
def decode_base64_chain (dstd dun dup' : String → Except B64Err (List ℕ))
    (base64_urls : String) : Except B64Err (List ℕ) :=
  match dstd base64_urls with
  | .ok bytes => .ok bytes
  | .error _ =>
    match dun base64_urls with
    | .ok bytes => .ok bytes
    | .error _ => dup' base64_urls

/-- Method `ImageService::process_base64_urls`: decode the payload through the
three-engine fallback chain, interpret the bytes as UTF-8, split on commas,
trim each piece, drop empty pieces, download the resulting URLs and composite
the downloaded images. -/
def process_base64_urls (dstd dun dup' : String → Except B64Err (List ℕ))
    (fetch : String → Except TransErr (List ℕ))
    (decode : List ℕ → Except ImgErr RgbaImage) (blend : Rgba → Rgba → Rgba)
    (base64_urls : String) :
    Except (GridError ImgErr TransErr B64Err) RgbaImage := do
  let decoded_bytes ←
    (decode_base64_chain dstd dun dup' base64_urls).mapError .Base64DecodeError
  match utf8Decode decoded_bytes with
  | none => .error .Utf8Error
  | some decoded_str =>
    let urls := (extract_urls decoded_str).map (fun cs => String.mk cs)
    let downloaded ← download_images fetch urls
    create_image_grid decode blend downloaded

end Facade

/-! ### Helper lemmas about `collectExcept` -/

theorem collectExcept_ok_length {ε α : Type} :
    ∀ (l : List (Except ε α)) (as : List α),
      collectExcept l = .ok as → as.length = l.length := by
  intro l
  induction l with
  | nil =>
    intro as h
    simp only [collectExcept] at h
    cases h
    rfl
  | cons x rest ih =>
    intro as h
    cases x with
    | error e => simp [collectExcept] at h
    | ok a =>
      simp only [collectExcept] at h
      cases hr : collectExcept rest with
      | error e => rw [hr] at h; simp [Except.map] at h
      | ok as' =>
        rw [hr] at h
        simp only [Except.map] at h
        cases h
        simp [ih as' hr]

theorem collectExcept_ok_get {ε α : Type} :
    ∀ (l : List (Except ε α)) (as : List α),
      collectExcept l = .ok as →
        ∀ i, l.get? i = (as.get? i).map Except.ok := by
  intro l
  induction l with
  | nil =>
    intro as h i
    simp only [collectExcept] at h
    cases h
    simp
  | cons x rest ih =>
    intro as h i
    cases x with
    | error e => simp [collectExcept] at h
    | ok a =>
      simp only [collectExcept] at h
      cases hr : collectExcept rest with
      | error e => rw [hr] at h; simp [Except.map] at h
      | ok as' =>
        rw [hr] at h
        simp only [Except.map] at h
        cases h
        cases i with
        | zero => simp
        | succ j => simpa using ih as' hr j

theorem collectExcept_error_mem {ε α : Type} :
    ∀ (l : List (Except ε α)) (e : ε),
      collectExcept l = .error e → Except.error e ∈ l := by
  intro l
  induction l with
  | nil => intro e h; simp [collectExcept] at h
  | cons x rest ih =>
    intro e h
    cases x with
    | error e' =>
      simp only [collectExcept] at h
      cases h
      exact List.mem_cons_self _ _
    | ok a =>
      simp only [collectExcept] at h
      cases hr : collectExcept rest with
      | error e'' =>
        rw [hr] at h
        simp only [Except.map] at h
        cases h
        exact List.mem_cons_of_mem _ (ih _ hr)
      | ok as' => rw [hr] at h; simp [Except.map] at h

theorem collectExcept_error_of_mem {ε α : Type} :
    ∀ (l : List (Except ε α)) (e : ε),
      Except.error e ∈ l → ∃ e', collectExcept l = .error e' := by
  intro l
  induction l with
  | nil => intro e h; simp at h
  | cons x rest ih =>
    intro e h
    cases x with
    | error e' => exact ⟨e', rfl⟩
    | ok a =>
      have hmem : Except.error e ∈ rest := by
        rcases List.mem_cons.mp h with h0 | h1
        · cases h0
        · exact h1
      obtain ⟨e', he'⟩ := ih e hmem
      refine ⟨e', ?_⟩
      simp [collectExcept, he', Except.map]

theorem collectExcept_first_error {ε α : Type} :
    ∀ (l : List (Except ε α)) (i : ℕ) (e : ε),
      l.get? i = some (.error e) →
      (∀ j, j < i → ∃ a, l.get? j = some (.ok a)) →
      collectExcept l = .error e := by
  intro l
  induction l with
  | nil => intro i e h _; simp at h
  | cons x rest ih =>
    intro i e h hfirst
    cases i with
    | zero =>
      simp only [List.get?] at h
      cases h
      rfl
    | succ i' =>
      obtain ⟨a, ha⟩ := hfirst 0 (Nat.succ_pos i')
      simp only [List.get?] at ha
      cases ha
      have hr := ih i' e (by simpa using h)
        (fun j hj => by simpa using hfirst (j + 1) (Nat.succ_lt_succ hj))
      simp [collectExcept, hr, Except.map]

/-! ### Claims C1 and C2: the grid planner's `f32` ceiling -/

/-- C1 (code_bug evidence): the claim says every `count ≥ 5` yields
`rows = ceil(count / 3)`.  At `count = 2 ^ 24 + 9 = 16777225` the code's
`f32` arithmetic first rounds the count to `16777224` (ties-to-even at 24
significant bits), whose third is exactly `5592408`, so the planner returns
`(3, 5592408)` while `ceil(16777225 / 3) = 5592409`. -/
theorem c1_planner_f32_divergence :
    calculate_grid_dimensions 16777225 = (3, 5592408) ∧
      (calculate_grid_dimensions 16777225).2 ≠ (16777225 + 3 - 1) / 3 := by
  decide

/-- C2 (code_bug evidence): at `count = 16777225` the planner's shape has
`columns * rows = 3 * 5592408 = 16777224 < count`, violating the documented
invariant `columns × rows ≥ image count`. -/
theorem c2_capacity_invariant_violation :
    (calculate_grid_dimensions 16777225).1 *
        (calculate_grid_dimensions 16777225).2 < 16777225 := by
  decide

/-! ### Claim C5: empty input -/

/-- C5: `create_image_grid` on an empty byte-buffer list and
`download_images` on an empty URL list both fail with `EmptyInput`, for every
possible transport, codec and blend collaborator — i.e. the error is produced
before any fetch, decode or canvas allocation could be observed. -/
theorem c5_empty_input (ImgErr TransErr B64Err : Type)
    (fetch : String → Except TransErr (List ℕ))
    (decode : List ℕ → Except ImgErr RgbaImage)
    (blend : Rgba → Rgba → Rgba) :
    @download_images ImgErr TransErr B64Err fetch [] = .error .EmptyInput ∧
      @create_image_grid ImgErr TransErr B64Err decode blend [] =
        .error .EmptyInput :=
  ⟨rfl, rfl⟩

/-! ### Claims C6, C8, C9: the fetcher's error and ordering behaviour -/

theorem download_images_eq_collect {ImgErr TransErr B64Err : Type}
    (fetch : String → Except TransErr (List ℕ)) (urls : List String)
    (hne : urls ≠ []) :
    @download_images ImgErr TransErr B64Err fetch urls =
      collectExcept
        (urls.map (fun url => (fetch url).mapError .DownloadError)) := by
  cases urls with
  | nil => exact absurd rfl hne
  | cons u rest => rfl

/-- C6: for a non-empty URL list, `download_images` fails — with a
`DownloadError` wrapping the transport error of one of the input URLs — if
and only if at least one per-URL fetch fails.  First conjunct: some fetch
failing makes the whole call fail with a `DownloadError` wrapping an actual
input URL's transport error.  Second conjunct (the converse): a
`DownloadError` result can only arise from a per-URL fetch that really
returned that transport error — with all fetches succeeding the call cannot
fail this way.  Since the result is a single `Except` value, the failure case
carries no byte buffers at all: no partial results are observable. -/
theorem c6_download_error_iff (ImgErr TransErr B64Err : Type)
    (fetch : String → Except TransErr (List ℕ)) (urls : List String)
    (hne : urls ≠ []) :
    ((∃ u ∈ urls, ∃ e, fetch u = .error e) ↔
      ∃ u ∈ urls, ∃ e, fetch u = .error e ∧
        @download_images ImgErr TransErr B64Err fetch urls =
          .error (.DownloadError e)) ∧
    ∀ e, @download_images ImgErr TransErr B64Err fetch urls =
        .error (.DownloadError e) →
      ∃ u ∈ urls, fetch u = .error e := by
  constructor
  · constructor
    · rintro ⟨u, hu, e, he⟩
      have hmem :
          (Except.error (GridError.DownloadError e :
              GridError ImgErr TransErr B64Err) :
            Except (GridError ImgErr TransErr B64Err) (List ℕ)) ∈
            urls.map (fun url => (fetch url).mapError .DownloadError) :=
        List.mem_map.mpr ⟨u, hu, by simp [he, Except.mapError]⟩
      obtain ⟨e', he'⟩ := collectExcept_error_of_mem _ _ hmem
      have hmem' := collectExcept_error_mem _ _ he'
      obtain ⟨v, hv, hfv⟩ := List.mem_map.mp hmem'
      cases hfetch : fetch v with
      | ok bs => rw [hfetch] at hfv; simp [Except.mapError] at hfv
      | error e2 =>
        rw [hfetch] at hfv
        simp only [Except.mapError] at hfv
        refine ⟨v, hv, e2, hfetch, ?_⟩
        have hee : GridError.DownloadError e2 = e' := by simpa using hfv
        rw [download_images_eq_collect fetch urls hne, he', ← hee]
    · rintro ⟨u, hu, e, he, _⟩
      exact ⟨u, hu, e, he⟩
  · intro e hdl
    rw [download_images_eq_collect fetch urls hne] at hdl
    have hmem := collectExcept_error_mem _ _ hdl
    obtain ⟨v, hv, hfv⟩ := List.mem_map.mp hmem
    cases hfetch : fetch v with
    | ok bs => rw [hfetch] at hfv; simp [Except.mapError] at hfv
    | error e2 =>
      rw [hfetch] at hfv
      simp only [Except.mapError] at hfv
      have he2 : e2 = e := by simpa using hfv
      exact ⟨v, hv, by rw [hfetch, he2]⟩

/-- C9: when the fetch of the URL at input index `i` fails and every URL at a
smaller index succeeds, `download_images` returns exactly the `DownloadError`
wrapping index `i`'s transport error — the error aggregation scans the
order-preserving `join_all` results in input order, so the smallest failing
input index deterministically wins, regardless of how many fetches fail. -/
theorem c9_least_index_error (ImgErr TransErr B64Err : Type)
    (fetch : String → Except TransErr (List ℕ)) (urls : List String)
    (i : ℕ) (u : String) (e : TransErr)
    (hu : urls.get? i = some u) (he : fetch u = .error e)
    (hprev : ∀ j, j < i → ∃ v bs, urls.get? j = some v ∧ fetch v = .ok bs) :
    @download_images ImgErr TransErr B64Err fetch urls =
      .error (.DownloadError e) := by
  have hne : urls ≠ [] := by
    intro h
    rw [h] at hu
    simp at hu
  rw [download_images_eq_collect fetch urls hne]
  apply collectExcept_first_error _ i
  · rw [List.get?_map, hu]
    simp [Except.mapError, he]
  · intro j hj
    obtain ⟨v, bs, hv, hok⟩ := hprev j hj
    exact ⟨bs, by rw [List.get?_map, hv]; simp [Except.mapError, hok]⟩

/-- C8: on success both the fetcher and the decode phase preserve input
order: the output element at index `i` is exactly the bytes fetched from
(resp. the image decoded from) the input element at index `i`. -/
theorem c8_order_preservation (ImgErr TransErr B64Err : Type)
    (fetch : String → Except TransErr (List ℕ))
    (decode : List ℕ → Except ImgErr RgbaImage)
    (urls : List String) (bss : List (List ℕ)) :
    (∀ bs, @download_images ImgErr TransErr B64Err fetch urls = .ok bs →
        bs.length = urls.length ∧
        ∀ i, i < urls.length →
          ∃ u b, urls.get? i = some u ∧ bs.get? i = some b ∧
            fetch u = .ok b) ∧
    (∀ imgs, @decode_all ImgErr TransErr B64Err decode bss = .ok imgs →
        imgs.length = bss.length ∧
        ∀ i, i < bss.length →
          ∃ b img, bss.get? i = some b ∧ imgs.get? i = some img ∧
            decode b = .ok img) := by
  constructor
  · intro bs h
    have hne : urls ≠ [] := by
      intro hnil
      rw [hnil] at h
      simp [download_images] at h
    rw [download_images_eq_collect fetch urls hne] at h
    refine ⟨by simpa using collectExcept_ok_length _ _ h, ?_⟩
    intro i hi
    obtain ⟨u, hu⟩ : ∃ u, urls.get? i = some u := by
      cases hget : urls.get? i with
      | none => rw [List.get?_eq_none] at hget; omega
      | some u => exact ⟨u, rfl⟩
    have hgi := collectExcept_ok_get _ _ h i
    rw [List.get?_map, hu] at hgi
    cases hb : bs.get? i with
    | none => rw [hb] at hgi; simp at hgi
    | some b =>
      rw [hb] at hgi
      simp only [Option.map] at hgi
      cases hfetch : fetch u with
      | error e => rw [hfetch] at hgi; simp [Except.mapError] at hgi
      | ok b' =>
        rw [hfetch] at hgi
        simp only [Except.mapError] at hgi
        have hbb : b' = b := by simpa using hgi
        refine ⟨u, b, hu, rfl, ?_⟩
        rw [hfetch]
        exact congrArg Except.ok hbb
  · intro imgs h
    rw [decode_all] at h
    refine ⟨by simpa using collectExcept_ok_length _ _ h, ?_⟩
    intro i hi
    obtain ⟨bts, hb⟩ : ∃ bts, bss.get? i = some bts := by
      cases hget : bss.get? i with
      | none => rw [List.get?_eq_none] at hget; omega
      | some bts => exact ⟨bts, rfl⟩
    have hgi := collectExcept_ok_get _ _ h i
    rw [List.get?_map, hb] at hgi
    cases him : imgs.get? i with
    | none => rw [him] at hgi; simp at hgi
    | some img =>
      rw [him] at hgi
      simp only [Option.map] at hgi
      cases hdec : decode bts with
      | error e => rw [hdec] at hgi; simp [Except.mapError] at hgi
      | ok img' =>
        rw [hdec] at hgi
        simp only [Except.mapError] at hgi
        have hii : img' = img := by simpa using hgi
        refine ⟨bts, img, hb, rfl, ?_⟩
        rw [hdec]
        exact congrArg Except.ok hii

/-- Concrete transport oracle for the C6 witness: URL "b" fails. -/
def fetchC6 : String → Except ℕ (List ℕ) :=
  fun v => if v = "b" then .error 7 else .ok [1]

/-- Witness for C6 at a concrete input: with URL "b" failing, the fetcher
reports the wrapped transport error (forward direction), and conversely from
the concrete `DownloadError 7` result some input URL's fetch must have
returned transport error `7`. -/
theorem c6_witness :
    (∃ u ∈ ["a", "b"], ∃ e, fetchC6 u = .error e ∧
      @download_images ℕ ℕ ℕ fetchC6 ["a", "b"] =
        .error (.DownloadError e)) ∧
    ∃ u ∈ ["a", "b"], fetchC6 u = .error 7 :=
  ⟨(c6_download_error_iff ℕ ℕ ℕ fetchC6 ["a", "b"] (by decide)).1.mp
      ⟨"b", by decide, 7, by simp [fetchC6]⟩,
   (c6_download_error_iff ℕ ℕ ℕ fetchC6 ["a", "b"] (by decide)).2 7 rfl⟩

/-- Concrete transport oracle for the C9 witness: both URLs fail, with
distinguishable errors. -/
def fetchC9 : String → Except ℕ (List ℕ) :=
  fun v => if v = "a" then .error 3 else .error 7

/-- Witness for C9 at a concrete input: with both fetches failing, the error
of the smaller input index (error `3` of URL "a") is returned. -/
theorem c9_witness :
    @download_images ℕ ℕ ℕ fetchC9 ["a", "b"] = .error (.DownloadError 3) :=
  c9_least_index_error ℕ ℕ ℕ fetchC9 ["a", "b"] 0 "a" 3 (by decide)
    (by simp [fetchC9]) (fun j hj => absurd hj (Nat.not_lt_zero j))

/-- Concrete transport oracle for the C8 witness. -/
def fetchC8 : String → Except ℕ (List ℕ) := fun _ => .ok [2]

/-- Concrete codec oracle for the C8 witness. -/
def decodeC8 : List ℕ → Except ℕ RgbaImage := fun _ => .ok (from_pixel 1 1 white)

/-- Witness for C8 at concrete inputs: a successful one-URL download and a
successful one-buffer decode, with the index correspondence evaluated. -/
theorem c8_witness :
    (([[2]] : List (List ℕ)).length = (["a"] : List String).length ∧
      ∀ i, i < (["a"] : List String).length →
        ∃ u b, (["a"] : List String).get? i = some u ∧
          ([[2]] : List (List ℕ)).get? i = some b ∧ fetchC8 u = .ok b) ∧
    (([from_pixel 1 1 white] : List RgbaImage).length =
        ([[3]] : List (List ℕ)).length ∧
      ∀ i, i < ([[3]] : List (List ℕ)).length →
        ∃ b img, ([[3]] : List (List ℕ)).get? i = some b ∧
          ([from_pixel 1 1 white] : List RgbaImage).get? i = some img ∧
          decodeC8 b = .ok img) :=
  ⟨(c8_order_preservation ℕ ℕ ℕ fetchC8 decodeC8 ["a"] [[3]]).1 [[2]] rfl,
   (c8_order_preservation ℕ ℕ ℕ fetchC8 decodeC8 ["a"] [[3]]).2
     [from_pixel 1 1 white] rfl⟩

/-! ### Canvas dimensions: claims C10 and C3 -/

theorem overlay_width (blend : Rgba → Rgba → Rgba) (bottom top : RgbaImage)
    (x y : ℕ) : (overlay blend bottom top x y).width = bottom.width := rfl

theorem overlay_height (blend : Rgba → Rgba → Rgba) (bottom top : RgbaImage)
    (x y : ℕ) : (overlay blend bottom top x y).height = bottom.height := rfl

theorem overlayAll_width (blend : Rgba → Rgba → Rgba) (cols mw mh : ℕ) :
    ∀ (l : List RgbaImage) (k : ℕ) (g : RgbaImage),
      (overlayAll blend cols mw mh k l g).width = g.width := by
  intro l
  induction l with
  | nil => intro k g; rfl
  | cons img rest ih =>
    intro k g
    rw [overlayAll, ih, overlay_width]

theorem overlayAll_height (blend : Rgba → Rgba → Rgba) (cols mw mh : ℕ) :
    ∀ (l : List RgbaImage) (k : ℕ) (g : RgbaImage),
      (overlayAll blend cols mw mh k l g).height = g.height := by
  intro l
  induction l with
  | nil => intro k g; rfl
  | cons img rest ih =>
    intro k g
    rw [overlayAll, ih, overlay_height]

/-- C10: the canvas dimensions are computed in wrapping unsigned 32-bit
arithmetic — the composed canvas has width `(columns * max_width) % 2 ^ 32`
and height `(rows * max_height) % 2 ^ 32` — so each dimension equals the
spec's product exactly when that product fits in 32 bits, and differs from it
whenever the product exceeds `2 ^ 32 - 1`. -/
theorem c10_u32_canvas_arithmetic (blend : Rgba → Rgba → Rgba)
    (images : List RgbaImage) :
    (composeImages blend images).width =
        (calculate_grid_dimensions images.length).1 * maxWidth images %
          2 ^ 32 ∧
    (composeImages blend images).height =
        (calculate_grid_dimensions images.length).2 * maxHeight images %
          2 ^ 32 ∧
    ((calculate_grid_dimensions images.length).1 * maxWidth images < 2 ^ 32 →
      (composeImages blend images).width =
        (calculate_grid_dimensions images.length).1 * maxWidth images) ∧
    (2 ^ 32 ≤ (calculate_grid_dimensions images.length).1 * maxWidth images →
      (composeImages blend images).width ≠
        (calculate_grid_dimensions images.length).1 * maxWidth images) ∧
    ((calculate_grid_dimensions images.length).2 * maxHeight images < 2 ^ 32 →
      (composeImages blend images).height =
        (calculate_grid_dimensions images.length).2 * maxHeight images) ∧
    (2 ^ 32 ≤ (calculate_grid_dimensions images.length).2 * maxHeight images →
      (composeImages blend images).height ≠
        (calculate_grid_dimensions images.length).2 * maxHeight images) := by
  have hw : (composeImages blend images).width =
      (calculate_grid_dimensions images.length).1 * maxWidth images %
        2 ^ 32 := by
    rw [composeImages, overlayAll_width]
    rfl
  have hh : (composeImages blend images).height =
      (calculate_grid_dimensions images.length).2 * maxHeight images %
        2 ^ 32 := by
    rw [composeImages, overlayAll_height]
    rfl
  refine ⟨hw, hh, ?_, ?_, ?_, ?_⟩
  · intro hfit
    rw [hw]
    exact Nat.mod_eq_of_lt hfit
  · intro hbig
    rw [hw]
    intro heq
    have := Nat.mod_lt
      ((calculate_grid_dimensions images.length).1 * maxWidth images)
      (show 0 < 2 ^ 32 by norm_num)
    omega
  · intro hfit
    rw [hh]
    exact Nat.mod_eq_of_lt hfit
  · intro hbig
    rw [hh]
    intro heq
    have := Nat.mod_lt
      ((calculate_grid_dimensions images.length).2 * maxHeight images)
      (show 0 < 2 ^ 32 by norm_num)
    omega

/-- A `2^31`-pixel-wide, 1-pixel-tall white image: five of them drive the
`u32` width product `3 * 2^31` past `2^32`. -/
def wideWhite : RgbaImage := from_pixel (2 ^ 31) 1 white

/-- Witness for C10 at concrete inputs: a 2-image set whose products fit in
32 bits gets the exact spec dimensions, and five `2^31`-wide images wrap. -/
theorem c10_witness :
    (composeImages (fun _ s => s)
        [from_pixel 3 2 white, from_pixel 5 1 white]).width = 10 ∧
    (composeImages (fun _ s => s)
        [wideWhite, wideWhite, wideWhite, wideWhite, wideWhite]).width ≠
      3 * 2 ^ 31 := by
  constructor
  · exact (c10_u32_canvas_arithmetic (fun _ s => s)
      [from_pixel 3 2 white, from_pixel 5 1 white]).2.2.1 (by decide)
  · have hcm : (calculate_grid_dimensions
        ([wideWhite, wideWhite, wideWhite, wideWhite, wideWhite] :
          List RgbaImage).length).1 *
        maxWidth [wideWhite, wideWhite, wideWhite, wideWhite, wideWhite] =
          3 * 2 ^ 31 := by decide
    have h := (c10_u32_canvas_arithmetic (fun _ s => s)
      [wideWhite, wideWhite, wideWhite, wideWhite, wideWhite]).2.2.2.1
      (by decide)
    rw [← hcm]
    exact h

/-- C3 (amended): for a non-empty image list whose `u32` dimension products
do not overflow, the canvas is exactly `columns * max_width` wide and
`rows * max_height` tall, and the canvas allocated before any overlay is
white at every pixel. -/
theorem c3_canvas_dims_amended (blend : Rgba → Rgba → Rgba)
    (images : List RgbaImage) (hne : images ≠ [])
    (hwfit : (calculate_grid_dimensions images.length).1 * maxWidth images <
      2 ^ 32)
    (hhfit : (calculate_grid_dimensions images.length).2 * maxHeight images <
      2 ^ 32) :
    (composeImages blend images).width =
        (calculate_grid_dimensions images.length).1 * maxWidth images ∧
      (composeImages blend images).height =
        (calculate_grid_dimensions images.length).2 * maxHeight images ∧
      ∀ x y, (initialCanvas images).pixelAt x y = white := by
  refine ⟨?_, ?_, fun x y => rfl⟩
  · rw [composeImages, overlayAll_width]
    exact Nat.mod_eq_of_lt hwfit
  · rw [composeImages, overlayAll_height]
    exact Nat.mod_eq_of_lt hhfit

/-- C3 counterexample: with five `2^31`-wide decoded images the claim's
unconditional formula `width = columns * max(widths)` fails — the `u32`
product `3 * 2^31` wraps to `2^31`. -/
theorem c3_counterexample :
    (composeImages (fun _ s => s)
        [wideWhite, wideWhite, wideWhite, wideWhite, wideWhite]).width ≠
      (calculate_grid_dimensions
          ([wideWhite, wideWhite, wideWhite, wideWhite, wideWhite] :
            List RgbaImage).length).1 *
        maxWidth [wideWhite, wideWhite, wideWhite, wideWhite, wideWhite] := by
  decide

/-- Witness for C3 at a concrete input: two images of sizes 3×2 and 5×1 give
a 2×2 grid with a 10×4 canvas, white before compositing. -/
theorem c3_witness :
    (composeImages (fun _ s => s)
        [from_pixel 3 2 white, from_pixel 5 1 white]).width = 10 ∧
      (composeImages (fun _ s => s)
        [from_pixel 3 2 white, from_pixel 5 1 white]).height = 4 ∧
      ∀ x y,
        (initialCanvas [from_pixel 3 2 white, from_pixel 5 1 white]).pixelAt
          x y = white :=
  c3_canvas_dims_amended (fun _ s => s)
    [from_pixel 3 2 white, from_pixel 5 1 white]
    (List.cons_ne_nil _ _) (by decide) (by decide)

/-! ### Claim C4: row-major placement -/

theorem maxWidth_cons (a : RgbaImage) (l : List RgbaImage) :
    maxWidth (a :: l) = max a.width (maxWidth l) := rfl

theorem maxHeight_cons (a : RgbaImage) (l : List RgbaImage) :
    maxHeight (a :: l) = max a.height (maxHeight l) := rfl

theorem maxWidth_le (images : List RgbaImage) (img : RgbaImage)
    (h : img ∈ images) : img.width ≤ maxWidth images := by
  induction images with
  | nil => simp at h
  | cons a rest ih =>
    rw [maxWidth_cons]
    rcases List.mem_cons.mp h with h0 | h1
    · rw [h0]
      exact le_max_left _ _
    · exact le_trans (ih h1) (le_max_right _ _)

theorem maxHeight_le (images : List RgbaImage) (img : RgbaImage)
    (h : img ∈ images) : img.height ≤ maxHeight images := by
  induction images with
  | nil => simp at h
  | cons a rest ih =>
    rw [maxHeight_cons]
    rcases List.mem_cons.mp h with h0 | h1
    · rw [h0]
      exact le_max_left _ _
    · exact le_trans (ih h1) (le_max_right _ _)

/-- For a positive image count the planner's column count is positive
(it is `1`, `2` or `3`; no `f32` arithmetic is involved in the columns). -/
theorem cols_pos (n : ℕ) (h : 0 < n) :
    0 < (calculate_grid_dimensions n).1 := by
  rcases n with _ | _ | _ | _ | _ | m
  · omega
  · decide
  · decide
  · decide
  · decide
  · show 0 < 3
    omega

theorem overlay_pixelAt (blend : Rgba → Rgba → Rgba) (bottom top : RgbaImage)
    (x y px py : ℕ) :
    (overlay blend bottom top x y).pixelAt px py =
      if x ≤ px ∧ px < x + top.width ∧ px < bottom.width ∧
         y ≤ py ∧ py < y + top.height ∧ py < bottom.height then
        blend (bottom.pixelAt px py) (top.pixelAt (px - x) (py - y))
      else bottom.pixelAt px py := rfl

theorem overlayAll_append (blend : Rgba → Rgba → Rgba) (cols mw mh : ℕ) :
    ∀ (l1 l2 : List RgbaImage) (k : ℕ) (g : RgbaImage),
      overlayAll blend cols mw mh k (l1 ++ l2) g =
        overlayAll blend cols mw mh (k + l1.length) l2
          (overlayAll blend cols mw mh k l1 g) := by
  intro l1
  induction l1 with
  | nil =>
    intro l2 k g
    simp [overlayAll]
  | cons img rest ih =>
    intro l2 k g
    have hk : k + 1 + rest.length = k + (rest.length + 1) := by omega
    calc overlayAll blend cols mw mh k ((img :: rest) ++ l2) g
        = overlayAll blend cols mw mh (k + 1) (rest ++ l2)
            (overlay blend g img (xoffset cols mw k) (yoffset cols mh k)) :=
          rfl
      _ = overlayAll blend cols mw mh (k + 1 + rest.length) l2
            (overlayAll blend cols mw mh (k + 1) rest
              (overlay blend g img (xoffset cols mw k) (yoffset cols mh k))) :=
          ih _ _ _
      _ = overlayAll blend cols mw mh (k + (img :: rest).length) l2
            (overlayAll blend cols mw mh k (img :: rest) g) := by
          rw [List.length_cons, hk]
          rfl

theorem overlayAll_pixel_untouched (blend : Rgba → Rgba → Rgba)
    (cols mw mh : ℕ) :
    ∀ (l : List RgbaImage) (k : ℕ) (g : RgbaImage) (x y : ℕ),
      (∀ j img, l.get? j = some img →
        (x < xoffset cols mw (k + j) ∨
          xoffset cols mw (k + j) + img.width ≤ x) ∨
        (y < yoffset cols mh (k + j) ∨
          yoffset cols mh (k + j) + img.height ≤ y)) →
      (overlayAll blend cols mw mh k l g).pixelAt x y = g.pixelAt x y := by
  intro l
  induction l with
  | nil => intro k g x y _; rfl
  | cons img rest ih =>
    intro k g x y h
    rw [overlayAll]
    rw [ih (k + 1) _ x y ?_]
    · have h0 := h 0 img rfl
      simp only [Nat.add_zero] at h0
      rw [overlay_pixelAt, if_neg]
      rintro ⟨hc1, hc2, _, hc4, hc5, _⟩
      rcases h0 with (hx | hx) | (hy | hy) <;> omega
    · intro j img' hj
      have hmem := h (j + 1) img' (by simpa using hj)
      have hadd : k + (j + 1) = k + 1 + j := by omega
      rw [hadd] at hmem
      exact hmem

theorem xoffset_eq (cols mw idx : ℕ) (hidx : idx < 2 ^ 32)
    (hfit : idx % cols * mw < 2 ^ 32) :
    xoffset cols mw idx = idx % cols * mw := by
  rw [xoffset, Nat.mod_eq_of_lt hidx, Nat.mod_eq_of_lt hfit]

theorem yoffset_eq (cols mh idx : ℕ) (hidx : idx < 2 ^ 32)
    (hfit : idx / cols * mh < 2 ^ 32) :
    yoffset cols mh idx = idx / cols * mh := by
  rw [yoffset, Nat.mod_eq_of_lt hidx, Nat.mod_eq_of_lt hfit]

/-- If tile column (or row) `c` strictly precedes `c'`, a tile of extent
`w ≤ mw` starting at `c * mw` ends no later than `c' * mw` starts. -/
theorem tile_left_of (c c' mw w : ℕ) (hlt : c < c') (hw : w ≤ mw) :
    c * mw + w ≤ c' * mw := by
  have h2 : (c + 1) * mw ≤ c' * mw := Nat.mul_le_mul_right _ (by omega)
  calc c * mw + w ≤ (c + 1) * mw := by rw [Nat.add_mul, Nat.one_mul]; omega
    _ ≤ c' * mw := h2

/-- Any image placed at a grid index `m ≠ i` misses the interior of image
`i`'s cell: either its x-range or its y-range is disjoint from the queried
pixel `(i % cols * mw + dx, i / cols * mh + dy)`. -/
theorem other_cell_disjoint (cols rows mw mh i m dx dy w h : ℕ)
    (hcpos : 0 < cols) (hm32 : m < 2 ^ 32)
    (hwfit : cols * mw < 2 ^ 32) (hhfit : rows * mh < 2 ^ 32)
    (hrowm : m / cols < rows) (hne : m ≠ i)
    (hdx : dx < mw) (hdy : dy < mh) (hw : w ≤ mw) (hh : h ≤ mh) :
    (i % cols * mw + dx < xoffset cols mw m ∨
      xoffset cols mw m + w ≤ i % cols * mw + dx) ∨
    (i / cols * mh + dy < yoffset cols mh m ∨
      yoffset cols mh m + h ≤ i / cols * mh + dy) := by
  have hxm : xoffset cols mw m = m % cols * mw := by
    refine xoffset_eq _ _ _ hm32 ?_
    have hb : m % cols * mw ≤ cols * mw :=
      Nat.mul_le_mul_right _ (le_of_lt (Nat.mod_lt _ hcpos))
    omega
  have hym : yoffset cols mh m = m / cols * mh := by
    refine yoffset_eq _ _ _ hm32 ?_
    have hb : m / cols * mh ≤ rows * mh :=
      Nat.mul_le_mul_right _ (le_of_lt hrowm)
    omega
  rw [hxm, hym]
  rcases Nat.lt_trichotomy (m % cols) (i % cols) with hlt | heq | hgt
  · exact Or.inl (Or.inr
      (le_trans (tile_left_of _ _ _ _ hlt hw) (Nat.le_add_right _ _)))
  · have hdiv : m / cols ≠ i / cols := by
      intro hdd
      apply hne
      have h1 := Nat.div_add_mod m cols
      have h2 := Nat.div_add_mod i cols
      rw [hdd, heq] at h1
      omega
    rcases Nat.lt_trichotomy (m / cols) (i / cols) with hl | he | hg
    · exact Or.inr (Or.inr
        (le_trans (tile_left_of _ _ _ _ hl hh) (Nat.le_add_right _ _)))
    · exact absurd he hdiv
    · refine Or.inr (Or.inl ?_)
      have h1 : i / cols * mh + dy < (i / cols + 1) * mh := by
        rw [Nat.add_mul, Nat.one_mul]; omega
      have h2 : (i / cols + 1) * mh ≤ m / cols * mh :=
        Nat.mul_le_mul_right _ (by omega)
      omega
  · refine Or.inl (Or.inl ?_)
    have h1 : i % cols * mw + dx < (i % cols + 1) * mw := by
      rw [Nat.add_mul, Nat.one_mul]; omega
    have h2 : (i % cols + 1) * mw ≤ m % cols * mw :=
      Nat.mul_le_mul_right _ (by omega)
    omega

/-- C4 (amended): whenever the index and offset arithmetic stays below
`2 ^ 32` (no `u32` wrap) and every image's planned row lies inside the grid,
the compositor shows the image of index `i` at cell
`(col = i mod columns, row = i div columns)`: the final canvas pixel at
`(col * max_width + dx, row * max_height + dy)` is image `i`'s pixel
`(dx, dy)` composited over the white background — native size, no scaling. -/
theorem c4_placement_amended (blend : Rgba → Rgba → Rgba)
    (images : List RgbaImage) (i dx dy : ℕ) (img : RgbaImage)
    (himg : images.get? i = some img)
    (hlen : images.length < 2 ^ 32)
    (hwfit : (calculate_grid_dimensions images.length).1 * maxWidth images <
      2 ^ 32)
    (hhfit : (calculate_grid_dimensions images.length).2 * maxHeight images <
      2 ^ 32)
    (hrows : ∀ j, j < images.length →
      j / (calculate_grid_dimensions images.length).1 <
        (calculate_grid_dimensions images.length).2)
    (hdx : dx < img.width) (hdy : dy < img.height) :
    (composeImages blend images).pixelAt
        (i % (calculate_grid_dimensions images.length).1 * maxWidth images +
          dx)
        (i / (calculate_grid_dimensions images.length).1 * maxHeight images +
          dy) =
      blend white (img.pixelAt dx dy) := by
  have hi : i < images.length := by
    by_contra hcon
    rw [List.get?_eq_none.mpr (by omega)] at himg
    cases himg
  set n := images.length with hn
  set cols := (calculate_grid_dimensions n).1 with hcolsdef
  set rows := (calculate_grid_dimensions n).2 with hrowsdef
  set mw := maxWidth images with hmwdef
  set mh := maxHeight images with hmhdef
  have hcpos : 0 < cols := cols_pos n (by omega)
  have hmem : img ∈ images := List.get?_mem himg
  have hwle : img.width ≤ mw := maxWidth_le images img hmem
  have hhle : img.height ≤ mh := maxHeight_le images img hmem
  have hmwpos : 0 < mw := by omega
  have hmhpos : 0 < mh := by omega
  have hcol : i % cols < cols := Nat.mod_lt _ hcpos
  have hrow : i / cols < rows := hrows i hi
  have hxi : xoffset cols mw i = i % cols * mw := by
    refine xoffset_eq _ _ _ (by omega) ?_
    have hb : i % cols * mw ≤ cols * mw :=
      Nat.mul_le_mul_right _ (le_of_lt hcol)
    omega
  have hyi : yoffset cols mh i = i / cols * mh := by
    refine yoffset_eq _ _ _ (by omega) ?_
    have hb : i / cols * mh ≤ rows * mh :=
      Nat.mul_le_mul_right _ (le_of_lt hrow)
    omega
  have hxlt : i % cols * mw + dx < cols * mw := by
    have h1 : i % cols * mw + dx < (i % cols + 1) * mw := by
      rw [Nat.add_mul, Nat.one_mul]; omega
    have h2 : (i % cols + 1) * mw ≤ cols * mw :=
      Nat.mul_le_mul_right _ (by omega)
    omega
  have hylt : i / cols * mh + dy < rows * mh := by
    have h1 : i / cols * mh + dy < (i / cols + 1) * mh := by
      rw [Nat.add_mul, Nat.one_mul]; omega
    have h2 : (i / cols + 1) * mh ≤ rows * mh :=
      Nat.mul_le_mul_right _ (by omega)
    omega
  have hsplit : images = images.take i ++ img :: images.drop (i + 1) := by
    conv_lhs => rw [← List.take_append_drop i images]
    congr 1
    rw [List.drop_eq_get_cons (show i < images.length by omega)]
    congr 1
    have hg := List.get?_eq_get (show i < images.length by omega)
    rw [hg] at himg
    exact Option.some.inj himg
  have hcomp : composeImages blend images =
      overlayAll blend cols mw mh 0 images (initialCanvas images) := rfl
  rw [hcomp]
  obtain ⟨init, hinitdef⟩ : ∃ g, initialCanvas images = g := ⟨_, rfl⟩
  rw [hinitdef]
  have hgw : init.width = cols * mw := by
    rw [← hinitdef]
    exact Nat.mod_eq_of_lt hwfit
  have hgh : init.height = rows * mh := by
    rw [← hinitdef]
    exact Nat.mod_eq_of_lt hhfit
  conv_lhs => rw [hsplit]
  rw [overlayAll_append, List.length_take, Nat.zero_add,
    min_eq_left (le_of_lt hi)]
  rw [overlayAll]
  have htail : ∀ j img', (images.drop (i + 1)).get? j = some img' →
      (i % cols * mw + dx < xoffset cols mw (i + 1 + j) ∨
        xoffset cols mw (i + 1 + j) + img'.width ≤ i % cols * mw + dx) ∨
      (i / cols * mh + dy < yoffset cols mh (i + 1 + j) ∨
        yoffset cols mh (i + 1 + j) + img'.height ≤ i / cols * mh + dy) := by
    intro j img' hj
    have hj' : images.get? (i + 1 + j) = some img' := by
      rw [← List.get?_drop]
      exact hj
    have hm : i + 1 + j < n := by
      by_contra hcon
      rw [List.get?_eq_none.mpr (by omega)] at hj'
      cases hj'
    have hmem' : img' ∈ images := List.get?_mem hj'
    exact other_cell_disjoint cols rows mw mh i (i + 1 + j) dx dy
      img'.width img'.height hcpos (by omega) hwfit hhfit (hrows _ hm)
      (by omega) (by omega) (by omega)
      (maxWidth_le _ _ hmem') (maxHeight_le _ _ hmem')
  rw [overlayAll_pixel_untouched blend cols mw mh (images.drop (i + 1))
    (i + 1) _ _ _ htail]
  have hcond : xoffset cols mw i ≤ i % cols * mw + dx ∧
      i % cols * mw + dx < xoffset cols mw i + img.width ∧
      i % cols * mw + dx <
        (overlayAll blend cols mw mh 0 (images.take i) init).width ∧
      yoffset cols mh i ≤ i / cols * mh + dy ∧
      i / cols * mh + dy < yoffset cols mh i + img.height ∧
      i / cols * mh + dy <
        (overlayAll blend cols mw mh 0 (images.take i) init).height := by
    rw [hxi, hyi, overlayAll_width, overlayAll_height, hgw, hgh]
    exact ⟨Nat.le_add_right _ _, by omega, by omega,
      Nat.le_add_right _ _, by omega, by omega⟩
  rw [overlay_pixelAt, if_pos hcond]
  have hpre : ∀ j img', (images.take i).get? j = some img' →
      (i % cols * mw + dx < xoffset cols mw (0 + j) ∨
        xoffset cols mw (0 + j) + img'.width ≤ i % cols * mw + dx) ∨
      (i / cols * mh + dy < yoffset cols mh (0 + j) ∨
        yoffset cols mh (0 + j) + img'.height ≤ i / cols * mh + dy) := by
    intro j img' hj
    have hjlen : j < i := by
      by_contra hcon
      have hlen' : (images.take i).length ≤ j := by
        rw [List.length_take]
        omega
      rw [List.get?_eq_none.mpr hlen'] at hj
      cases hj
    have hj' : images.get? j = some img' := by
      rw [← List.get?_take hjlen]
      exact hj
    have hmem' : img' ∈ images := List.get?_mem hj'
    rw [Nat.zero_add]
    exact other_cell_disjoint cols rows mw mh i j dx dy
      img'.width img'.height hcpos (by omega) hwfit hhfit
      (hrows _ (by omega)) (by omega) (by omega) (by omega)
      (maxWidth_le _ _ hmem') (maxHeight_le _ _ hmem')
  rw [overlayAll_pixel_untouched blend cols mw mh (images.take i) 0 init _ _
    hpre]
  have hinitpix : init.pixelAt (i % cols * mw + dx) (i / cols * mh + dy) =
      white := by
    rw [← hinitdef]
    rfl
  rw [hinitpix]
  have hdxeq : i % cols * mw + dx - xoffset cols mw i = dx := by
    rw [hxi]
    omega
  have hdyeq : i / cols * mh + dy - yoffset cols mh i = dy := by
    rw [hyi]
    omega
  rw [hdxeq, hdyeq]

/-- A `2^31`-wide all-red one-row image, for the C4 counterexample. -/
def red31 : RgbaImage := from_pixel (2 ^ 31) 1 ⟨255, 0, 0, 255⟩

/-- A `2^31`-wide all-green one-row image, for the C4 counterexample. -/
def green31 : RgbaImage := from_pixel (2 ^ 31) 1 ⟨0, 255, 0, 255⟩

/-- C4 counterexample: with five `2^31`-wide opaque images (and overwrite
blending, which is what the crate's alpha compositing does on fully opaque
pixels), image 2's `u32` x-offset `2 * 2^31` wraps to `0`, so the pixel that
the claim says shows image 0 composited over white in cell `(0, 0)` in fact
shows image 2. -/
theorem c4_counterexample :
    (composeImages (fun _ s => s)
        [red31, wideWhite, green31, wideWhite, wideWhite]).pixelAt
        (0 % (calculate_grid_dimensions
            ([red31, wideWhite, green31, wideWhite, wideWhite] :
              List RgbaImage).length).1 *
          maxWidth [red31, wideWhite, green31, wideWhite, wideWhite] + 0)
        (0 / (calculate_grid_dimensions
            ([red31, wideWhite, green31, wideWhite, wideWhite] :
              List RgbaImage).length).1 *
          maxHeight [red31, wideWhite, green31, wideWhite, wideWhite] + 0) ≠
      (fun _ s => s) white (red31.pixelAt 0 0) := by
  decide

/-- A 2×1 all-red image for the C4 witness. -/
def redSmall : RgbaImage := from_pixel 2 1 ⟨255, 0, 0, 255⟩

/-- A 1×1 all-green image for the C4 witness. -/
def greenSmall : RgbaImage := from_pixel 1 1 ⟨0, 255, 0, 255⟩

/-- Witness for C4 at a concrete input: in a two-image 2×2 grid with
`max_width = 2`, image 1 appears at cell `(1, 0)`, i.e. pixel offset
`(2, 0)`. -/
theorem c4_witness :
    (composeImages (fun _ s => s) [redSmall, greenSmall]).pixelAt
        (1 % (calculate_grid_dimensions
            ([redSmall, greenSmall] : List RgbaImage).length).1 *
          maxWidth [redSmall, greenSmall] + 0)
        (1 / (calculate_grid_dimensions
            ([redSmall, greenSmall] : List RgbaImage).length).1 *
          maxHeight [redSmall, greenSmall] + 0) =
      (fun _ s => s) white (greenSmall.pixelAt 0 0) :=
  c4_placement_amended (fun _ s => s) [redSmall, greenSmall] 1 0 0 greenSmall
    rfl (by decide) (by decide) (by decide) (by decide) (by decide) (by decide)

/-! ### Claim C7: the encoded-source-list entry point -/

theorem splitComma_chars :
    ∀ (cs : List Char) (piece : List Char), piece ∈ splitComma cs →
      ∀ c ∈ piece, c ∈ cs ∧ c ≠ ',' := by
  intro cs
  induction cs with
  | nil =>
    intro piece hp c hc
    simp only [splitComma] at hp
    rcases List.mem_singleton.mp hp with h
    rw [h] at hc
    simp at hc
  | cons a rest ih =>
    intro piece hp c hc
    by_cases ha : a = ','
    · rw [splitComma, if_pos ha] at hp
      rcases List.mem_cons.mp hp with h0 | h1
      · rw [h0] at hc
        simp at hc
      · obtain ⟨hmem, hne⟩ := ih piece h1 c hc
        exact ⟨List.mem_cons_of_mem _ hmem, hne⟩
    · rw [splitComma, if_neg ha] at hp
      cases hsr : splitComma rest with
      | nil =>
        rw [hsr] at hp
        rcases List.mem_singleton.mp hp with h
        rw [h] at hc
        rcases List.mem_singleton.mp hc with h'
        rw [h']
        exact ⟨List.mem_cons_self _ _, ha⟩
      | cons p ps =>
        rw [hsr] at hp
        rcases List.mem_cons.mp hp with h0 | h1
        · rw [h0] at hc
          rcases List.mem_cons.mp hc with h' | h''
          · rw [h']
            exact ⟨List.mem_cons_self _ _, ha⟩
          · have hpmem : p ∈ splitComma rest := by
              rw [hsr]
              exact List.mem_cons_self _ _
            obtain ⟨hmem, hne⟩ := ih p hpmem c h''
            exact ⟨List.mem_cons_of_mem _ hmem, hne⟩
        · have hpmem : piece ∈ splitComma rest := by
            rw [hsr]
            exact List.mem_cons_of_mem _ h1
          obtain ⟨hmem, hne⟩ := ih piece hpmem c hc
          exact ⟨List.mem_cons_of_mem _ hmem, hne⟩

theorem rustTrim_eq_nil (p : List Char)
    (h : ∀ c ∈ p, rustIsWhitespace c = true) : rustTrim p = [] := by
  rw [rustTrim, List.dropWhile_eq_nil_iff.mpr h]
  rfl

/-- A payload consisting only of commas and whitespace yields no URL. -/
theorem extract_urls_eq_nil (cs : List Char)
    (h : ∀ c ∈ cs, c = ',' ∨ rustIsWhitespace c = true) :
    extract_urls cs = [] := by
  rw [extract_urls, List.filter_eq_nil]
  intro a ha
  obtain ⟨piece, hpiece, hmap⟩ := List.mem_map.mp ha
  have htrim : rustTrim piece = [] := by
    apply rustTrim_eq_nil
    intro c hc
    obtain ⟨hmem, hne⟩ := splitComma_chars cs piece hpiece c hc
    rcases h c hmem with h' | h'
    · exact absurd h' hne
    · exact h'
  rw [← hmap, htrim]
  simp

/-- C7: the encoded-source-list entry point tries the three base64 engines in
the fixed order standard-padded, URL-safe-unpadded, URL-safe-padded, takes the
first success, fails with the encoding-decode error only when all three fail;
on success it interprets the bytes as UTF-8 (failing with the text-decode
error otherwise), splits on commas, trims, drops empties and delegates to the
URL pipeline; an all-commas/whitespace payload surfaces as `EmptyInput` from
the downstream fetcher, and a URL-safe-unpadded payload decodes to the same
URL list as the standard-padded encoding of the same bytes. -/
theorem c7_base64_pipeline (ImgErr TransErr B64Err : Type)
    (dstd dun dup' : String → Except B64Err (List ℕ))
    (fetch : String → Except TransErr (List ℕ))
    (decode : List ℕ → Except ImgErr RgbaImage)
    (blend : Rgba → Rgba → Rgba) :
    (∀ s, (∃ b, decode_base64_chain dstd dun dup' s = .ok b) ↔
        ((∃ b, dstd s = .ok b) ∨ (∃ b, dun s = .ok b) ∨
          (∃ b, dup' s = .ok b))) ∧
    (∀ s b, dstd s = .ok b → decode_base64_chain dstd dun dup' s = .ok b) ∧
    (∀ s e b, dstd s = .error e → dun s = .ok b →
        decode_base64_chain dstd dun dup' s = .ok b) ∧
    (∀ s e e', dstd s = .error e → dun s = .error e' →
        decode_base64_chain dstd dun dup' s = dup' s) ∧
    (∀ s e, decode_base64_chain dstd dun dup' s = .error e →
        @process_base64_urls ImgErr TransErr B64Err dstd dun dup' fetch decode
            blend s = .error (.Base64DecodeError e)) ∧
    (∀ s b, decode_base64_chain dstd dun dup' s = .ok b →
        utf8Decode b = none →
        @process_base64_urls ImgErr TransErr B64Err dstd dun dup' fetch decode
            blend s = .error .Utf8Error) ∧
    (∀ s b cs, decode_base64_chain dstd dun dup' s = .ok b →
        utf8Decode b = some cs →
        @process_base64_urls ImgErr TransErr B64Err dstd dun dup' fetch decode
            blend s = (do
          let downloaded ← @download_images ImgErr TransErr B64Err fetch
            ((extract_urls cs).map (fun p => String.mk p))
          create_image_grid decode blend downloaded)) ∧
    (∀ s b cs, decode_base64_chain dstd dun dup' s = .ok b →
        utf8Decode b = some cs →
        (∀ c ∈ cs, c = ',' ∨ rustIsWhitespace c = true) →
        @process_base64_urls ImgErr TransErr B64Err dstd dun dup' fetch decode
            blend s = .error .EmptyInput) ∧
    (∀ s1 s2 b e, dstd s1 = .ok b → dstd s2 = .error e → dun s2 = .ok b →
        @process_base64_urls ImgErr TransErr B64Err dstd dun dup' fetch decode
            blend s1 =
          @process_base64_urls ImgErr TransErr B64Err dstd dun dup' fetch
            decode blend s2) := by
  have hchain_ok : ∀ s b, dstd s = .ok b →
      decode_base64_chain dstd dun dup' s = .ok b := by
    intro s b h
    rw [decode_base64_chain, h]
  have hchain_un : ∀ s e b, dstd s = .error e → dun s = .ok b →
      decode_base64_chain dstd dun dup' s = .ok b := by
    intro s e b h1 h2
    rw [decode_base64_chain, h1, h2]
  have hchain_dup : ∀ s e e', dstd s = .error e → dun s = .error e' →
      decode_base64_chain dstd dun dup' s = dup' s := by
    intro s e e' h1 h2
    rw [decode_base64_chain, h1, h2]
  have hproc : ∀ s b cs, decode_base64_chain dstd dun dup' s = .ok b →
      utf8Decode b = some cs →
      @process_base64_urls ImgErr TransErr B64Err dstd dun dup' fetch decode
          blend s = (do
        let downloaded ← @download_images ImgErr TransErr B64Err fetch
          ((extract_urls cs).map (fun p => String.mk p))
        create_image_grid decode blend downloaded) := by
    intro s b cs hchain hutf
    rw [process_base64_urls, hchain]
    show (match utf8Decode b with
      | none => Except.error GridError.Utf8Error
      | some decoded_str => do
          let downloaded ← @download_images ImgErr TransErr B64Err fetch
            ((extract_urls decoded_str).map (fun p => String.mk p))
          create_image_grid decode blend downloaded) = _
    rw [hutf]
  refine ⟨?_, hchain_ok, hchain_un, hchain_dup, ?_, ?_, hproc, ?_, ?_⟩
  · intro s
    constructor
    · rintro ⟨b, hb⟩
      cases hstd : dstd s with
      | ok b0 => exact Or.inl ⟨b0, rfl⟩
      | error e0 =>
        cases hun : dun s with
        | ok b1 => exact Or.inr (Or.inl ⟨b1, rfl⟩)
        | error e1 =>
          rw [hchain_dup s e0 e1 hstd hun] at hb
          exact Or.inr (Or.inr ⟨b, hb⟩)
    · rintro (⟨b, hb⟩ | ⟨b, hb⟩ | ⟨b, hb⟩)
      · exact ⟨b, hchain_ok s b hb⟩
      · cases hstd : dstd s with
        | ok b0 => exact ⟨b0, hchain_ok s b0 hstd⟩
        | error e0 => exact ⟨b, hchain_un s e0 b hstd hb⟩
      · cases hstd : dstd s with
        | ok b0 => exact ⟨b0, hchain_ok s b0 hstd⟩
        | error e0 =>
          cases hun : dun s with
          | ok b1 => exact ⟨b1, hchain_un s e0 b1 hstd hun⟩
          | error e1 => exact ⟨b, by rw [hchain_dup s e0 e1 hstd hun]; exact hb⟩
  · intro s e hchain
    rw [process_base64_urls, hchain]
    rfl
  · intro s b hchain hutf
    rw [process_base64_urls, hchain]
    show (match utf8Decode b with
      | none => Except.error GridError.Utf8Error
      | some decoded_str => do
          let downloaded ← @download_images ImgErr TransErr B64Err fetch
            ((extract_urls decoded_str).map (fun p => String.mk p))
          create_image_grid decode blend downloaded) = _
    rw [hutf]
  · intro s b cs hchain hutf hcommas
    rw [hproc s b cs hchain hutf, extract_urls_eq_nil cs hcommas]
    rfl
  · intro s1 s2 b e h1 h2 h3
    rw [process_base64_urls, process_base64_urls, hchain_ok s1 b h1,
      hchain_un s2 e b h2 h3]

/-- Concrete standard-padded engine for the C7 witness: decodes "std" to the
byte `97` ("a") and "commas" to the bytes of ", ,", fails otherwise. -/
def dstdW : String → Except ℕ (List ℕ) :=
  fun s =>
    if s = "std" then .ok [97]
    else if s = "commas" then .ok [44, 32, 44] else .error 0

/-- Concrete URL-safe-unpadded engine for the C7 witness: decodes "un" to the
same byte `97`, fails otherwise. -/
def dunW : String → Except ℕ (List ℕ) :=
  fun s => if s = "un" then .ok [97] else .error 1

/-- Concrete URL-safe-padded engine for the C7 witness: always fails. -/
def dupW : String → Except ℕ (List ℕ) := fun _ => .error 2

/-- Concrete transport oracle for the C7 witness. -/
def fetchW : String → Except ℕ (List ℕ) := fun _ => .error 5

/-- Concrete codec oracle for the C7 witness. -/
def decodeW : List ℕ → Except ℕ RgbaImage := fun _ => .ok (from_pixel 1 1 white)

/-- Witness for C7 at concrete inputs: a payload whose standard decoding
fails but whose URL-safe-unpadded decoding yields the same bytes produces the
same result as the standard-encoded payload, and a commas-and-whitespace
payload surfaces as `EmptyInput`. -/
theorem c7_witness :
    @process_base64_urls ℕ ℕ ℕ dstdW dunW dupW fetchW decodeW
        (fun _ s => s) "std" =
      @process_base64_urls ℕ ℕ ℕ dstdW dunW dupW fetchW decodeW
        (fun _ s => s) "un" ∧
    @process_base64_urls ℕ ℕ ℕ dstdW dunW dupW fetchW decodeW
        (fun _ s => s) "commas" = .error .EmptyInput :=
  ⟨(c7_base64_pipeline ℕ ℕ ℕ dstdW dunW dupW fetchW decodeW
      (fun _ s => s)).2.2.2.2.2.2.2.2 "std" "un" [97] 0 rfl rfl rfl,
   (c7_base64_pipeline ℕ ℕ ℕ dstdW dunW dupW fetchW decodeW
      (fun _ s => s)).2.2.2.2.2.2.2.1 "commas" [44, 32, 44] [',', ' ', ',']
     rfl rfl (by decide)⟩

end ImagePreview
